import Mathlib

/-!
Shallow embedding of the ResearchFlow session-detail page
(`metricsChartData`, paper add/remove handlers, chat/draft/bibliography
handlers) together with proofs of the specification claims about it.

Texts are modelled as `List Char`; JS numbers that hold integer counts are
modelled as `Nat`/`Int` with exact arithmetic.
-/

namespace ResearchFlow

/-- JS `\s` whitespace class, restricted to the ASCII range actually used. -/
def jsSpace (c : Char) : Bool :=
  c = ' ' || c = '\t' || c = '\n' || c = '\r' || c = '\x0b' || c = '\x0c'

/-- ASCII lower-casing, the effect of JS `toLowerCase` on the ASCII range. -/
def toLowerChar (c : Char) : Char :=
  if 'A' ≤ c && c ≤ 'Z' then Char.ofNat (c.toNat + 32) else c

/-- Characters the regex `[^a-z0-9\s-]` does NOT replace with a space. -/
def keepChar (c : Char) : Bool :=
  ('a' ≤ c && c ≤ 'z') || ('0' ≤ c && c ≤ '9') || jsSpace c || c = '-'

/-- Split into maximal whitespace-free runs, accumulator-style.
JS `split(/\s+/)` additionally yields empty fragments at the ends, but those
are removed by the length-4 filter in `tokenize`, so they are dropped here. -/
def splitAux : List Char → List Char → List (List Char)
  | [], acc => if acc = [] then [] else [acc.reverse]
  | c :: rest, acc =>
    if jsSpace c then
      if acc = [] then splitAux rest [] else acc.reverse :: splitAux rest []
    else
      splitAux rest (c :: acc)

def splitOnSpaces (s : List Char) : List (List Char) :=
  splitAux s []

/-- The `tokenize` closure of `metricsChartData`: lower-case, replace every
character outside `[a-z0-9\s-]` by a space, split on whitespace, keep tokens
of length ≥ 4, and collect them into a JS `Set` (here: a duplicate-free
list; no metric depends on the iteration order of the set). -/
def tokenize (text : List Char) : List (List Char) :=
  let cleaned := (text.map toLowerChar).map (fun c => if keepChar c then c else ' ')
  ((splitOnSpaces cleaned).filter (fun t => 4 ≤ t.length)).dedup

/-- JS `\w` word characters, as used by the `\b` word-boundary assertion. -/
def wordChar (c : Char) : Bool :=
  ('a' ≤ c && c ≤ 'z') || ('A' ≤ c && c ≤ 'Z') || ('0' ≤ c && c ≤ '9') || c = '_'

def wordOpt : Option Char → Bool
  | none => false
  | some c => wordChar c

/-- `\b` holds at a position iff exactly one of the neighbouring characters
(string ends count as non-word) is a word character. -/
def isBoundary (a b : Option Char) : Bool :=
  wordOpt a != wordOpt b

/-- The regex `\b t \b` matches at the start of the suffix `s`, whose
predecessor character in the full text is `prev`. -/
def matchesAt (t : List Char) (prev : Option Char) (s : List Char) : Bool :=
  t.isPrefixOf s && isBoundary prev s.head? &&
    isBoundary t.reverse.head? ((s.drop t.length).head?)

/-- One left-to-right scan of `\b t \b` over the remaining text, bounded by
a fuel that only needs to cover the text length (each step consumes at
least one character; a nonempty token consumes its whole match). -/
def scanCountAux : Nat → List Char → Option Char → List Char → Nat
  | 0, _, _, _ => 0
  | _ + 1, [], _, _ => 0
  | _ + 1, _ :: _, _, [] => 0
  | fuel + 1, th :: tt, prev, c :: rest =>
    if matchesAt (th :: tt) prev (c :: rest) then
      1 + scanCountAux fuel (th :: tt) ((th :: tt).reverse.head?) (rest.drop tt.length)
    else
      scanCountAux fuel (th :: tt) (some c) rest

/-- `text.match(new RegExp(String.raw .. b t b .., 'g')).length`: the number
of matches of `\b t \b` found scanning left to right, where after a match
the scan resumes at its end (JS advances `lastIndex` past each match). -/
def scanCount (t : List Char) (prev : Option Char) (s : List Char) : Nat :=
  scanCountAux s.length t prev s

/-- Whole-word match count of token `t` in `text`, as the source's regex
loop computes it. -/
def countWholeWord (t text : List Char) : Nat :=
  scanCount t none text

/-- Number of positions of `text` (with virtual predecessor `prev`) at which
`\b t \b` matches — every occurrence position, overlapping ones included.
This is the reading of the spec's "total occurrences ... as a whole-word
match", written independently of the scanning implementation. -/
def posCount (t : List Char) : Option Char → List Char → Nat
  | _, [] => 0
  | prev, c :: rest =>
    (if matchesAt t prev (c :: rest) then 1 else 0) + posCount t (some c) rest

/-- Modelled from the spec: `keywordHits` read as the total number of
whole-word occurrence positions of each topic token in the paper's text. -/
def specTokenOccurrences (t text : List Char) : Nat :=
  posCount t none text

-- ----- Data model (from the `Paper`/`ResearchSession` interfaces) -----

structure Author where
  name : String
  deriving Repr, DecidableEq

structure Paper where
  id : String
  title : String
  authors : List Author
  abstract : Option String
  year : Option Int
  citation_count : Option Int
  url : Option String
  pdf_url : Option String
  source_type : String
  venue : Option String
  deriving Repr, DecidableEq

structure ResearchSession where
  id : String
  title : String
  topic : String
  description : Option String
  created_at : String
  updated_at : String
  deriving Repr, DecidableEq

structure MetricsChartItem where
  id : String
  idx : Nat
  title : String
  shortTitle : String
  citations : Int
  relevance : Nat
  relevanceScore : Nat
  keywordHits : Nat
  deriving Repr, DecidableEq, Inhabited

/-- The lower-cased topic text: `` `${session.title} ${session.topic}`.toLowerCase() ``. -/
def topicChars (s : ResearchSession) : List Char :=
  (s.title.data ++ ' ' :: s.topic.data).map toLowerChar

/-- The lower-cased paper text: `` `${p.title} ${p.abstract ?? ''}`.toLowerCase() ``. -/
def paperChars (p : Paper) : List Char :=
  (p.title.data ++ ' ' :: (p.abstract.getD "").data).map toLowerChar

structure RawPoint where
  id : String
  title : String
  citations : Int
  relevance : Nat
  keywordHits : Nat
  deriving Repr, DecidableEq

/-- One element of `rawPoints`: the per-paper pass of `metricsChartData`. -/
def rawPoint (topicTokens : List (List Char)) (p : Paper) : RawPoint :=
  let text := paperChars p
  let paperTokens := tokenize text
  { id := p.id
    title := p.title
    citations := match p.citation_count with
      | some c => if 0 < c then c else 0
      | none => 0
    relevance := (topicTokens.filter (fun t => t ∈ paperTokens)).length
    keywordHits := (topicTokens.map (fun t => countWholeWord t text)).sum }

/-- JS `Math.round (a / b)` for natural `a`, positive natural `b`:
`floor (a / b + 1 / 2) = (2 * a + b) / (2 * b)` in exact arithmetic
(ECMA `Math.round` returns the closest integer, ties toward `+∞`, of the
exact value of its argument). -/
def jsRound (a b : Nat) : Nat :=
  (2 * a + b) / (2 * b)

/-- Round `a / b` to the nearest integer, ties to even — the IEEE-754
round-to-nearest-even rule applied to an exact quotient. -/
def rneInt (a b : Nat) : Nat :=
  if 2 * (a % b) < b then a / b
  else if b < 2 * (a % b) then a / b + 1
  else if (a / b) % 2 = 0 then a / b else a / b + 1

/-- Smallest number of doublings taking `r` to at least `target`
(fuel-bounded so the recursion is structural). -/
def findShift : Nat → Nat → Nat → Nat
  | 0, _, _ => 0
  | fuel + 1, r, target => if target ≤ r then 0 else 1 + findShift fuel (2 * r) target

/-- The normalisation shift for `r / m`: the smallest `σ` with
`r · 2^σ ≥ m · 2^52`, so the rounded significand lands in `[2^52, 2^53)`. -/
def divShift (r m : Nat) : Nat :=
  findShift (m + 60) r (m * 2 ^ 52)

/-- The renormalisation shift after multiplying a significand by 100:
the product of a 53-bit significand with 100 needs at most 7 more bits. -/
def mulShift (p : Nat) : Nat :=
  if p < 2 ^ 53 then 0 else if p < 2 ^ 54 then 1 else if p < 2 ^ 55 then 2
  else if p < 2 ^ 56 then 3 else if p < 2 ^ 57 then 4 else if p < 2 ^ 58 then 5
  else if p < 2 ^ 59 then 6 else 7

/-- Binary64 model of `Math.round((r / m) * 100)` for `0 ≤ r ≤ m`, `1 ≤ m`
(as `metricsChartData` calls it): `r / m` is rounded to a 53-bit
significand `n · 2^(-divShift r m)` (round to nearest, ties to even), the
product with 100 is rounded to 53 bits again, and `Math.round` floors the
exact value plus one half.  The integer inputs are taken as exactly
representable (relevance counts stay far below `2^53`). -/
def jsRelevanceScore (r m : Nat) : Nat :=
  if r = 0 then 0
  else
    let n := rneInt (r * 2 ^ divShift r m) m
    let t := mulShift (100 * n)
    jsRound (rneInt (100 * n) (2 ^ t)) (2 ^ (divShift r m - t))

/-- `trimEnd`: drop trailing whitespace. -/
def listTrimEnd (l : List Char) : List Char :=
  (l.reverse.dropWhile jsSpace).reverse

/-- `title.length > 24 ? title.slice(0, 21).trimEnd() + '…' : title`. -/
def shortTitleOf (t : String) : String :=
  if 24 < t.data.length then ⟨listTrimEnd (t.data.take 21) ++ ['…']⟩ else t

/-- The `metricsChartData` memo: `[]` when the session is missing or the
paper list is empty; otherwise the per-paper metric points, with
`relevanceScore` normalised against the corpus-wide maximum relevance
(`reduce max .. 0 || 1` guards the zero case).  The score
`Math.round((p.relevance / maxRelevance) * 100)` is computed in binary64
floating point, modelled exactly by `jsRelevanceScore`. -/
def metricsChartData (session : Option ResearchSession) (papers : List Paper) :
    List MetricsChartItem :=
  match session with
  | none => []
  | some s =>
    if papers.isEmpty then [] else
      let topicTokens := tokenize (topicChars s)
      let rawPoints := papers.map (rawPoint topicTokens)
      let m := rawPoints.foldl (fun acc p => max acc p.relevance) (0 : Nat)
      let maxRelevance := if m = 0 then 1 else m
      rawPoints.enum.map (fun pr =>
        { id := pr.2.id
          idx := pr.1 + 1
          title := pr.2.title
          shortTitle := shortTitleOf pr.2.title
          citations := pr.2.citations
          relevance := pr.2.relevance
          keywordHits := pr.2.keywordHits
          relevanceScore := jsRelevanceScore pr.2.relevance maxRelevance })

-- ----- Handlers (add/remove paper, chat, draft, bibliography) -----

inductive DraftStyle
  | summary
  | literature_review
  deriving Repr, DecidableEq

inductive BibliographyStyle
  | bibtex
  | apa
  | mla
  | ieee
  deriving Repr, DecidableEq

inductive ChatRole
  | user
  | assistant
  deriving Repr, DecidableEq

structure ChatMessage where
  role : ChatRole
  content : String
  deriving Repr, DecidableEq

/-- A request the page issues to the backend API. -/
inductive BackendRequest
  | draftGenerate (sessionId : String) (style : DraftStyle)
  | bibliography (sessionId : String) (style : BibliographyStyle)
  | chat (sessionId : String) (question : String)
  deriving Repr, DecidableEq

/-- The page state the paper handlers touch: the `papers` list and the
`addedPaperIds` set. -/
structure SessionState where
  papers : List Paper
  addedPaperIds : Finset String
  deriving DecidableEq

/-- `handleAddPaper`: an early return when the id is already in
`addedPaperIds`; otherwise the POST runs and on success the functional
`setPapers` update prepends the paper unless its id is already present,
and the id is inserted into `addedPaperIds`.  A failed POST (`apiOk =
false`) leaves the state unchanged. -/
def handleAddPaper (st : SessionState) (p : Paper) (apiOk : Bool) : SessionState :=
  if p.id ∈ st.addedPaperIds then st
  else if apiOk then
    { papers :=
        if st.papers.any (fun q => q.id == p.id) then st.papers else p :: st.papers
      addedPaperIds := insert p.id st.addedPaperIds }
  else st

/-- `handleRemovePaper`: nothing happens unless the user confirms; on a
successful delete the paper is filtered out of `papers` and its id erased
from `addedPaperIds`; a failed delete leaves the state unchanged. -/
def handleRemovePaper (st : SessionState) (paperId : String)
    (confirmed dbOk : Bool) : SessionState :=
  if !confirmed then st
  else if dbOk then
    { papers := st.papers.filter (fun p => p.id != paperId)
      addedPaperIds := st.addedPaperIds.erase paperId }
  else st

/-- Result of the `/rag/chat` POST: the answer, or a failure whose optional
detail is the server's `detail` field. -/
inductive ChatResult
  | success (answer : String)
  | failure (detail : Option String)
  deriving Repr, DecidableEq

/-- JS `String.prototype.trim`: strip leading and trailing whitespace. -/
def jsTrim (s : String) : String :=
  ⟨((s.data.dropWhile jsSpace).reverse.dropWhile jsSpace).reverse⟩

/-- `handleChatSubmit`: returns the new `chatMessages` list and the backend
requests issued.  Empty (trimmed) input is ignored; otherwise the user turn
is appended, the POST is issued, and either the answer or an
`"Error: " ++ detail` assistant turn is appended. -/
def handleChatSubmit (sessionId : String) (msgs : List ChatMessage)
    (input : String) (res : ChatResult) : List ChatMessage × List BackendRequest :=
  if jsTrim input = "" then (msgs, [])
  else
    let question := jsTrim input
    match res with
    | .success answer =>
      (msgs ++ [⟨.user, question⟩, ⟨.assistant, answer⟩],
        [.chat sessionId question])
    | .failure detail =>
      (msgs ++ [⟨.user, question⟩,
          ⟨.assistant, "Error: " ++ detail.getD "Failed to get answer"⟩],
        [.chat sessionId question])

/-- `handleGenerateDraft`: with no papers it alerts and returns before the
POST; otherwise it issues the `/draft/generate` request. -/
def handleGenerateDraft (sessionId : String) (papers : List Paper)
    (style : DraftStyle) : Option String × List BackendRequest :=
  if papers.length = 0 then
    (some "Add some sources to this session before generating a draft.", [])
  else
    (none, [.draftGenerate sessionId style])

/-- `handleExportBibliography`: with no papers it alerts and returns before
the GET; otherwise it issues the `/draft/bibliography` request. -/
def handleExportBibliography (sessionId : String) (papers : List Paper)
    (style : BibliographyStyle) : Option String × List BackendRequest :=
  if papers.length = 0 then
    (some "Add some sources to this session before exporting references.", [])
  else
    (none, [.bibliography sessionId style])

/-- The `disabled` attribute of the chat submit button:
`chatLoading || !chatInput.trim() || papers.length === 0`. -/
def chatSubmitDisabled (chatLoading : Bool) (chatInput : String)
    (papers : List Paper) : Bool :=
  chatLoading || jsTrim chatInput = "" || papers.length = 0

-- ----- Concrete instances used by C1 and the witnesses -----

def sessC1 : ResearchSession :=
  { id := "s1", title := "", topic := "machine learning diagnostics",
    description := none, created_at := "", updated_at := "" }

def paperA : Paper :=
  { id := "A", title := "Machine Learning for Diagnostics", authors := [],
    abstract := none, year := none, citation_count := some 50, url := none,
    pdf_url := none, source_type := "semantic_scholar", venue := none }

def paperB : Paper :=
  { id := "B", title := "Cooking Recipes", authors := [], abstract := none,
    year := none, citation_count := some 5, url := none, pdf_url := none,
    source_type := "semantic_scholar", venue := none }

def sessC4 : ResearchSession :=
  { id := "s2", title := "", topic := "a-a-a", description := none,
    created_at := "", updated_at := "" }

def paperC4 : Paper :=
  { id := "C", title := "a-a-a-a", authors := [], abstract := none,
    year := none, citation_count := some 0, url := none, pdf_url := none,
    source_type := "arxiv", venue := none }

/-- A session whose topic has 40 distinct tokens, for the C2
counterexample (relevance ratio 23/40). -/
def sessC2 : ResearchSession :=
  { id := "s3", title := "",
    topic := "qa00 qa01 qa02 qa03 qa04 qa05 qa06 qa07 qa08 qa09 qa10 qa11 qa12 qa13 qa14 qa15 qa16 qa17 qa18 qa19 qa20 qa21 qa22 qa23 qa24 qa25 qa26 qa27 qa28 qa29 qa30 qa31 qa32 qa33 qa34 qa35 qa36 qa37 qa38 qa39",
    description := none, created_at := "", updated_at := "" }

/-- Shares 23 of the 40 topic tokens: relevance 23. -/
def paperPart : Paper :=
  { id := "P23",
    title := "qa00 qa01 qa02 qa03 qa04 qa05 qa06 qa07 qa08 qa09 qa10 qa11 qa12 qa13 qa14 qa15 qa16 qa17 qa18 qa19 qa20 qa21 qa22",
    authors := [], abstract := none, year := none, citation_count := some 0,
    url := none, pdf_url := none, source_type := "arxiv", venue := none }

/-- Shares all 40 topic tokens: relevance 40 (the corpus maximum). -/
def paperFull : Paper :=
  { id := "P40",
    title := "qa00 qa01 qa02 qa03 qa04 qa05 qa06 qa07 qa08 qa09 qa10 qa11 qa12 qa13 qa14 qa15 qa16 qa17 qa18 qa19 qa20 qa21 qa22 qa23 qa24 qa25 qa26 qa27 qa28 qa29 qa30 qa31 qa32 qa33 qa34 qa35 qa36 qa37 qa38 qa39",
    authors := [], abstract := none, year := none, citation_count := some 0,
    url := none, pdf_url := none, source_type := "arxiv", venue := none }

-- ----- Specification-side definitions -----

/-- The corpus-wide maximum relevance exactly as `metricsChartData` folds
it up over `rawPoints` (before the `|| 1` guard). -/
def corpusMaxRelevance (s : ResearchSession) (papers : List Paper) : Nat :=
  (papers.map (rawPoint (tokenize (topicChars s)))).foldl
    (fun acc p => max acc p.relevance) 0

/-- Modelled from the spec: the stored citation count when it is a
non-negative number, and `0` otherwise (negative or missing). -/
def specCitations (stored : Option Int) : Int :=
  match stored with
  | some c => if 0 ≤ c then c else 0
  | none => 0

/-- Modelled from the spec: `round(100 × relevance / max relevance)` in
exact arithmetic — `(2*a + b) / (2*b)` is `⌊a/b + 1/2⌋`, i.e. JS
`Math.round (a / b)` for non-negative `a/b` — with every score `0` when the
maximum relevance over the corpus is `0`. -/
def specRelevanceScore (rel maxRel : Nat) : Nat :=
  if maxRel = 0 then 0 else (2 * (100 * rel) + maxRel) / (2 * maxRel)

/-- A well-formed metric token: length at least 4, and only lower-case
letters, digits, or hyphens — every other character was replaced by a
space before splitting. -/
def goodToken (t : List Char) : Prop :=
  4 ≤ t.length ∧ ∀ c ∈ t, ('a' ≤ c ∧ c ≤ 'z') ∨ ('0' ≤ c ∧ c ≤ '9') ∨ c = '-'

/-- Modelled from the spec: keywordHits read as the total number of
whole-word occurrence positions (repeats counted, overlapping included) of
each topic token in the paper's text. -/
def specKeywordHits (s : ResearchSession) (p : Paper) : Nat :=
  ((tokenize (topicChars s)).map
    (fun t => specTokenOccurrences t (paperChars p))).sum

/-- C1: for a session with topic text "machine learning diagnostics" and the
two-paper corpus (Paper A "Machine Learning for Diagnostics" with 50
citations, Paper B "Cooking Recipes" with 5, both abstracts empty) the
metrics computation yields relevance 3 vs 0 (so relevance(A) >
relevance(B)), relevanceScore 100 vs 0, and citations 50 vs 5. -/
theorem c1_metrics_determinism :
    ((metricsChartData (some sessC1) [paperA, paperB]).map
        (fun i => (i.relevance, i.relevanceScore, i.citations)) =
      [(3, 100, (50 : Int)), (0, 0, 5)]) ∧
    ((metricsChartData (some sessC1) [paperA, paperB]).map
        (fun i => i.relevance)).getD 1 0 <
      ((metricsChartData (some sessC1) [paperA, paperB]).map
        (fun i => i.relevance)).getD 0 0 := by
  decide

/-- C5: with an empty paper list, draft generation and bibliography export
return immediately with an empty-corpus message and issue no backend
request, and the chat submit control is disabled. -/
theorem c5_empty_corpus_blocks (sessionId : String) (papers : List Paper)
    (style : DraftStyle) (bstyle : BibliographyStyle) (loading : Bool)
    (input : String) (h : papers = []) :
    (handleGenerateDraft sessionId papers style).2 = [] ∧
    (handleGenerateDraft sessionId papers style).1 =
      some "Add some sources to this session before generating a draft." ∧
    (handleExportBibliography sessionId papers bstyle).2 = [] ∧
    (handleExportBibliography sessionId papers bstyle).1 =
      some "Add some sources to this session before exporting references." ∧
    chatSubmitDisabled loading input papers = true := by
  subst h
  refine ⟨rfl, rfl, rfl, rfl, ?_⟩
  simp [chatSubmitDisabled]

/-- Witness for C5 at a concrete empty corpus. -/
theorem c5_empty_corpus_blocks_witness :
    (handleGenerateDraft "s1" [] DraftStyle.summary).2 = [] ∧
    (handleGenerateDraft "s1" [] DraftStyle.summary).1 =
      some "Add some sources to this session before generating a draft." ∧
    (handleExportBibliography "s1" [] BibliographyStyle.bibtex).2 = [] ∧
    (handleExportBibliography "s1" [] BibliographyStyle.bibtex).1 =
      some "Add some sources to this session before exporting references." ∧
    chatSubmitDisabled false "what is this paper about" [] = true :=
  c5_empty_corpus_blocks "s1" [] DraftStyle.summary BibliographyStyle.bibtex
    false "what is this paper about" rfl

/-- C6 counterexample: on a failed model call the chat history does NOT
consist of the user's question alone — a synthetic assistant-role entry
("Error: Failed to get answer") is appended as well. -/
theorem c6_chat_failure_counterexample :
    (handleChatSubmit "s1" [] "hi" (ChatResult.failure none)).1 ≠
      [⟨ChatRole.user, "hi"⟩] ∧
    ∃ m ∈ (handleChatSubmit "s1" [] "hi" (ChatResult.failure none)).1,
      m.role = ChatRole.assistant := by
  decide

/-- C6 (amended): when the model call for a chat question fails, the failure
is surfaced to the caller and the chat history records the user's question —
followed by an assistant-role error entry whose content is `"Error: "` plus
the error detail, not by a synthetic answer. -/
theorem c6_chat_failure_history (sessionId : String) (msgs : List ChatMessage)
    (input : String) (detail : Option String) (h : jsTrim input ≠ "") :
    (handleChatSubmit sessionId msgs input (ChatResult.failure detail)).1 =
      msgs ++ [⟨ChatRole.user, jsTrim input⟩,
        ⟨ChatRole.assistant, "Error: " ++ detail.getD "Failed to get answer"⟩] ∧
    (handleChatSubmit sessionId msgs input (ChatResult.failure detail)).2 =
      [BackendRequest.chat sessionId (jsTrim input)] := by
  unfold handleChatSubmit
  rw [if_neg h]
  exact ⟨rfl, rfl⟩

/-- Witness for the amended C6 at a concrete failing call. -/
theorem c6_chat_failure_history_witness :
    jsTrim "hi" ≠ "" ∧
    (handleChatSubmit "s1" [] "hi" (ChatResult.failure (some "boom"))).1 =
      [⟨ChatRole.user, jsTrim "hi"⟩, ⟨ChatRole.assistant, "Error: boom"⟩] :=
  ⟨by decide, ((c6_chat_failure_history "s1" [] "hi" (some "boom") (by decide)).1)⟩

/-- One step of `handleAddPaper` keeps the paper ids duplicate-free. -/
theorem handleAddPaper_nodup {st : SessionState} (p : Paper) (ok : Bool)
    (h : (st.papers.map Paper.id).Nodup) :
    (((handleAddPaper st p ok).papers.map Paper.id)).Nodup := by
  unfold handleAddPaper
  split
  · exact h
  · split
    · split
      · exact h
      · rename_i hany
        simp only [List.map_cons, List.nodup_cons]
        refine ⟨?_, h⟩
        intro hmem
        apply hany
        rcases List.mem_map.mp hmem with ⟨q, hq, hqid⟩
        exact List.any_eq_true.mpr ⟨q, hq, by simp [hqid]⟩
    · exact h

/-- C7: over any sequence of add-paper operations the paper list never holds
two entries with the same id, and adding a paper whose id is already present
leaves the list unchanged. -/
theorem c7_add_paper_unique_ids (init : SessionState) (ops : List (Paper × Bool))
    (h : (init.papers.map Paper.id).Nodup) :
    (((ops.foldl (fun s pr => handleAddPaper s pr.1 pr.2) init).papers.map
        Paper.id)).Nodup ∧
    ∀ p ok, p.id ∈ init.papers.map Paper.id →
      (handleAddPaper init p ok).papers = init.papers := by
  constructor
  · induction ops generalizing init with
    | nil => exact h
    | cons op rest ih =>
      exact ih (handleAddPaper init op.1 op.2) (handleAddPaper_nodup op.1 op.2 h)
  · intro p ok hmem
    rcases List.mem_map.mp hmem with ⟨q, hq, hqid⟩
    unfold handleAddPaper
    split
    · rfl
    · split
      · have hany : init.papers.any (fun q => q.id == p.id) = true :=
          List.any_eq_true.mpr ⟨q, hq, by simp [hqid]⟩
        simp [hany]
      · rfl

/-- Witness for C7: two successive adds of the same paper from the empty
state. -/
theorem c7_add_paper_unique_ids_witness :
    ((([(paperA, true), (paperA, true)].foldl
        (fun s pr => handleAddPaper s pr.1 pr.2) ⟨[], ∅⟩).papers.map
        Paper.id)).Nodup ∧
    ∀ p ok, p.id ∈ (([] : List Paper).map Paper.id) →
      (handleAddPaper ⟨[], ∅⟩ p ok).papers = ([] : List Paper) :=
  c7_add_paper_unique_ids ⟨[], ∅⟩ [(paperA, true), (paperA, true)] (by simp)

/-- C8: after a successful (confirmed, no database error) removal of a paper
id, no entry with that id remains, the id leaves `addedPaperIds`, and a
paper survives exactly when it was present before with a different id. -/
theorem c8_remove_paper_frame (st : SessionState) (pid : String)
    (confirmed dbOk : Bool) (hc : confirmed = true) (hd : dbOk = true) :
    (∀ p ∈ (handleRemovePaper st pid confirmed dbOk).papers, p.id ≠ pid) ∧
    pid ∉ (handleRemovePaper st pid confirmed dbOk).addedPaperIds ∧
    ∀ q, q ∈ (handleRemovePaper st pid confirmed dbOk).papers ↔
      q ∈ st.papers ∧ q.id ≠ pid := by
  subst hc hd
  unfold handleRemovePaper
  simp only [Bool.not_true, Bool.false_eq_true, if_false, if_true]
  refine ⟨?_, ?_, ?_⟩
  · intro p hp
    exact bne_iff_ne.mp (List.mem_filter.mp hp).2
  · exact Finset.not_mem_erase pid st.addedPaperIds
  · intro q
    constructor
    · intro hq
      exact ⟨(List.mem_filter.mp hq).1, bne_iff_ne.mp (List.mem_filter.mp hq).2⟩
    · intro ⟨hq, hne⟩
      exact List.mem_filter.mpr ⟨hq, bne_iff_ne.mpr hne⟩

/-- Witness for C8 at a concrete removal. -/
theorem c8_remove_paper_frame_witness :
    (∀ p ∈ (handleRemovePaper ⟨[paperA, paperB], {"A", "B"}⟩ "A" true true).papers,
      p.id ≠ "A") ∧
    "A" ∉ (handleRemovePaper ⟨[paperA, paperB], {"A", "B"}⟩ "A" true true).addedPaperIds ∧
    ∀ q, q ∈ (handleRemovePaper ⟨[paperA, paperB], {"A", "B"}⟩ "A" true true).papers ↔
      q ∈ [paperA, paperB] ∧ q.id ≠ "A" :=
  c8_remove_paper_frame ⟨[paperA, paperB], {"A", "B"}⟩ "A" true true rfl rfl

-- ----- Structure of the metrics output -----

theorem metricsChartData_length (s : ResearchSession) (papers : List Paper)
    (h : papers ≠ []) :
    (metricsChartData (some s) papers).length = papers.length := by
  have hne : ¬papers.isEmpty = true := by simpa [List.isEmpty_iff] using h
  simp only [metricsChartData, if_neg hne]
  simp

theorem metricsChartData_get (s : ResearchSession) (papers : List Paper)
    (h : papers ≠ []) (k : Nat) (hk : k < papers.length)
    (hk2 : k < (metricsChartData (some s) papers).length) :
    (metricsChartData (some s) papers).get ⟨k, hk2⟩ =
      { id := (rawPoint (tokenize (topicChars s)) (papers.get ⟨k, hk⟩)).id
        idx := k + 1
        title := (rawPoint (tokenize (topicChars s)) (papers.get ⟨k, hk⟩)).title
        shortTitle :=
          shortTitleOf (rawPoint (tokenize (topicChars s)) (papers.get ⟨k, hk⟩)).title
        citations := (rawPoint (tokenize (topicChars s)) (papers.get ⟨k, hk⟩)).citations
        relevance := (rawPoint (tokenize (topicChars s)) (papers.get ⟨k, hk⟩)).relevance
        keywordHits :=
          (rawPoint (tokenize (topicChars s)) (papers.get ⟨k, hk⟩)).keywordHits
        relevanceScore :=
          jsRelevanceScore ((rawPoint (tokenize (topicChars s)) (papers.get ⟨k, hk⟩)).relevance)
            (if corpusMaxRelevance s papers = 0 then 1 else corpusMaxRelevance s papers) } := by
  have hne : ¬papers.isEmpty = true := by simpa [List.isEmpty_iff] using h
  simp only [metricsChartData, if_neg hne, corpusMaxRelevance, List.get_eq_getElem,
    List.getElem_map, List.getElem_enum]

theorem metricsChartData_relevances (s : ResearchSession) (papers : List Paper)
    (h : papers ≠ []) :
    (metricsChartData (some s) papers).map MetricsChartItem.relevance =
      (papers.map (rawPoint (tokenize (topicChars s)))).map RawPoint.relevance := by
  have hne : ¬papers.isEmpty = true := by simpa [List.isEmpty_iff] using h
  apply List.ext_getElem
  · rw [List.length_map, metricsChartData_length s papers h, List.length_map,
      List.length_map]
  · intro i h1 h2
    have hk : i < papers.length := by simpa using h2
    have hk2 : i < (metricsChartData (some s) papers).length := by
      rw [metricsChartData_length s papers h]; exact hk
    simp only [List.getElem_map]
    have hitem := metricsChartData_get s papers h i hk hk2
    rw [List.get_eq_getElem] at hitem
    rw [hitem]
    simp [List.get_eq_getElem]

-- ----- Small facts about `foldl max` -----

theorem foldl_max_init_le (l : List Nat) (a : Nat) : a ≤ l.foldl max a := by
  induction l generalizing a with
  | nil => exact Nat.le_refl a
  | cons c rest ih => exact Nat.le_trans (Nat.le_max_left a c) (ih (max a c))

theorem le_foldl_max_of_mem {l : List Nat} {x : Nat} (a : Nat) (hx : x ∈ l) :
    x ≤ l.foldl max a := by
  induction l generalizing a with
  | nil => cases hx
  | cons c rest ih =>
    rcases List.mem_cons.mp hx with rfl | hmem
    · exact Nat.le_trans (Nat.le_max_right a x) (foldl_max_init_le rest (max a x))
    · exact ih (max a c) hmem

theorem foldl_max_le {l : List Nat} {a b : Nat} (ha : a ≤ b)
    (h : ∀ x ∈ l, x ≤ b) : l.foldl max a ≤ b := by
  induction l generalizing a with
  | nil => exact ha
  | cons c rest ih =>
    exact ih (Nat.max_le.mpr ⟨ha, h c (List.mem_cons_self c rest)⟩)
      (fun x hx => h x (List.mem_cons_of_mem c hx))

-- ----- C9 -----

/-- C9: every metrics item's `citations` equals the paper's stored
`citation_count` when that count is non-negative, and `0` otherwise, and
the metric is never negative. -/
theorem c9_citations_clamped (s : ResearchSession) (papers : List Paper)
    (h : papers ≠ []) (k : Nat) (hk : k < papers.length) :
    ∃ hk2 : k < (metricsChartData (some s) papers).length,
      ((metricsChartData (some s) papers).get ⟨k, hk2⟩).citations =
        specCitations (papers.get ⟨k, hk⟩).citation_count ∧
      0 ≤ ((metricsChartData (some s) papers).get ⟨k, hk2⟩).citations := by
  have hk2 : k < (metricsChartData (some s) papers).length := by
    rw [metricsChartData_length s papers h]; exact hk
  refine ⟨hk2, ?_⟩
  rw [metricsChartData_get s papers h k hk hk2]
  simp only [rawPoint]
  cases hcc : (papers.get ⟨k, hk⟩).citation_count with
  | none => simp [specCitations]
  | some c =>
    simp only [specCitations]
    constructor
    · split_ifs <;> omega
    · split_ifs <;> omega

/-- Witness for C9 on the concrete two-paper corpus. -/
theorem c9_citations_clamped_witness :
    ∃ hk2 : 0 < (metricsChartData (some sessC1) [paperA, paperB]).length,
      ((metricsChartData (some sessC1) [paperA, paperB]).get ⟨0, hk2⟩).citations =
        specCitations (([paperA, paperB].get ⟨0, by decide⟩).citation_count) ∧
      0 ≤ ((metricsChartData (some sessC1) [paperA, paperB]).get ⟨0, hk2⟩).citations :=
  c9_citations_clamped sessC1 [paperA, paperB] (by decide) 0 (by decide)

-- ----- C2 and C10 -----

theorem corpusMaxRelevance_eq (s : ResearchSession) (papers : List Paper) :
    corpusMaxRelevance s papers =
      ((papers.map (rawPoint (tokenize (topicChars s)))).map
        RawPoint.relevance).foldl max 0 := by
  rw [List.foldl_map]
  rfl

/-- Every item of the metrics output carries the relevance of its paper's
raw point and a `relevanceScore` rounded against the guarded maximum. -/
theorem mem_metricsChartData (s : ResearchSession) (papers : List Paper)
    (h : papers ≠ []) {it : MetricsChartItem}
    (hit : it ∈ metricsChartData (some s) papers) :
    ∃ (k : Nat) (hk : k < papers.length),
      it.relevance = (rawPoint (tokenize (topicChars s)) (papers.get ⟨k, hk⟩)).relevance ∧
      it.keywordHits = (rawPoint (tokenize (topicChars s)) (papers.get ⟨k, hk⟩)).keywordHits ∧
      it.relevanceScore = jsRelevanceScore it.relevance
        (if corpusMaxRelevance s papers = 0 then 1 else corpusMaxRelevance s papers) := by
  rcases List.mem_iff_get.mp hit with ⟨⟨k, hk2⟩, rfl⟩
  have hk : k < papers.length := by
    rw [← metricsChartData_length s papers h]; exact hk2
  refine ⟨k, hk, ?_, ?_, ?_⟩ <;> rw [metricsChartData_get s papers h k hk hk2]

theorem relevance_le_corpusMax (s : ResearchSession) (papers : List Paper)
    (h : papers ≠ []) {it : MetricsChartItem}
    (hit : it ∈ metricsChartData (some s) papers) :
    it.relevance ≤ corpusMaxRelevance s papers := by
  have hmem : it.relevance ∈
      (metricsChartData (some s) papers).map MetricsChartItem.relevance :=
    List.mem_map_of_mem _ hit
  rw [metricsChartData_relevances s papers h] at hmem
  rw [corpusMaxRelevance_eq]
  exact le_foldl_max_of_mem 0 hmem

-- ----- Binary64 facts for the score -----

theorem findShift_zero (fuel r target : Nat) (h : target ≤ r) :
    findShift fuel r target = 0 := by
  cases fuel with
  | zero => rfl
  | succ fuel => simp [findShift, h]

theorem findShift_reach (fuel : Nat) :
    ∀ r target : Nat, target ≤ r * 2 ^ fuel →
      target ≤ r * 2 ^ findShift fuel r target := by
  induction fuel with
  | zero =>
    intro r target h
    simpa [findShift] using h
  | succ fuel ih =>
    intro r target h
    by_cases h0 : target ≤ r
    · rw [findShift_zero _ _ _ h0]
      simpa using h0
    · simp only [findShift]
      rw [if_neg h0]
      have h2 : target ≤ 2 * r * 2 ^ fuel := by
        calc target ≤ r * 2 ^ (fuel + 1) := h
          _ = 2 * r * 2 ^ fuel := by ring
      calc target ≤ 2 * r * 2 ^ findShift fuel (2 * r) target := ih (2 * r) target h2
        _ = r * 2 ^ (1 + findShift fuel (2 * r) target) := by ring

theorem findShift_lt (fuel : Nat) :
    ∀ r target : Nat, r < target → r * 2 ^ findShift fuel r target < 2 * target := by
  induction fuel with
  | zero =>
    intro r target h
    simp only [findShift, pow_zero, Nat.mul_one]
    omega
  | succ fuel ih =>
    intro r target h
    simp only [findShift]
    rw [if_neg (by omega)]
    by_cases h2 : target ≤ 2 * r
    · rw [findShift_zero _ _ _ h2]
      norm_num
      omega
    · calc r * 2 ^ (1 + findShift fuel (2 * r) target)
          = 2 * r * 2 ^ findShift fuel (2 * r) target := by ring
        _ < 2 * target := ih (2 * r) target (by omega)

/-- The normalisation shift puts the scaled numerator in `[m·2^52, m·2^53)`
and is at least 52 whenever `1 ≤ r ≤ m`. -/
theorem divShift_spec (r m : Nat) (hr : 1 ≤ r) (hrm : r ≤ m) :
    m * 2 ^ 52 ≤ r * 2 ^ divShift r m ∧ r * 2 ^ divShift r m < m * 2 ^ 53 ∧
      52 ≤ divShift r m := by
  have hm : 0 < m := lt_of_lt_of_le hr hrm
  have hfuel : m * 2 ^ 52 ≤ r * 2 ^ (m + 60) := by
    calc m * 2 ^ 52 ≤ 2 ^ m * 2 ^ 52 :=
          Nat.mul_le_mul_right _ (le_of_lt (Nat.lt_two_pow m))
      _ = 2 ^ (m + 52) := by rw [← pow_add]
      _ ≤ 2 ^ (m + 60) := Nat.pow_le_pow_right (by omega) (by omega)
      _ ≤ r * 2 ^ (m + 60) := by
          conv_lhs => rw [← Nat.one_mul (2 ^ (m + 60))]
          exact Nat.mul_le_mul_right _ hr
  have hreach : m * 2 ^ 52 ≤ r * 2 ^ divShift r m :=
    findShift_reach (m + 60) r (m * 2 ^ 52) hfuel
  refine ⟨hreach, ?_, ?_⟩
  · have hrt : r < m * 2 ^ 52 := by
      calc r ≤ m := hrm
        _ < m * 2 ^ 52 := (lt_mul_iff_one_lt_right hm).mpr (by norm_num)
    calc r * 2 ^ divShift r m < 2 * (m * 2 ^ 52) :=
          findShift_lt (m + 60) r (m * 2 ^ 52) hrt
      _ = m * 2 ^ 53 := by ring
  · have h2 : m * 2 ^ 52 ≤ m * 2 ^ divShift r m :=
      le_trans hreach (Nat.mul_le_mul_right _ hrm)
    have h3 : (2 : Nat) ^ 52 ≤ 2 ^ divShift r m :=
      Nat.le_of_mul_le_mul_left h2 hm
    exact (Nat.pow_le_pow_iff_right (by omega)).mp h3

/-- For `r = m` the normalisation shift is exactly 52. -/
theorem divShift_self (m : Nat) (hm : 0 < m) : divShift m m = 52 := by
  have h52 := (divShift_spec m m hm (le_refl m)).2.2
  have hlt := (divShift_spec m m hm (le_refl m)).2.1
  have h2 : m * 2 ^ divShift m m < m * 2 ^ 53 := hlt
  have h3 : (2 : Nat) ^ divShift m m < 2 ^ 53 := Nat.lt_of_mul_lt_mul_left h2
  have h4 : divShift m m < 53 := (Nat.pow_lt_pow_iff_right (by omega)).mp h3
  omega

theorem mulShift_le (p : Nat) : mulShift p ≤ 7 := by
  unfold mulShift
  split_ifs <;> omega

theorem rneInt_bounds (a b : Nat) (hb : 0 < b) :
    2 * a ≤ 2 * (b * rneInt a b) + b ∧ 2 * (b * rneInt a b) ≤ 2 * a + b := by
  obtain ⟨q, rem, hq, hrem, hqr, hrb⟩ :
      ∃ q rem, a / b = q ∧ a % b = rem ∧ b * q + rem = a ∧ rem < b :=
    ⟨a / b, a % b, rfl, rfl, Nat.div_add_mod a b, Nat.mod_lt a hb⟩
  unfold rneInt
  rw [hq, hrem]
  split_ifs with h1 h2 h3 <;>
    exact ⟨by nlinarith [hqr, hrb], by nlinarith [hqr, hrb]⟩

theorem rneInt_dvd (a b : Nat) (hb : 0 < b) (h : a % b = 0) :
    rneInt a b = a / b := by
  unfold rneInt
  rw [h]
  simp [hb]

/-- The two-sided error of the float pipeline against the exact value,
scaled up to integers: `2·N·m` differs from `200·r·D` by at most `228·m`,
where `N·2^(t-σ)` is the computed double and `D = 2^(σ-t)`. -/
theorem score_key (r m : Nat) (hr : 1 ≤ r) (hrm : r ≤ m) :
    ∃ N D : Nat, 256 ≤ D ∧
      jsRelevanceScore r m = (2 * N + D) / (2 * D) ∧
      2 * (N * m) ≤ 200 * (r * D) + 228 * m ∧
      200 * (r * D) ≤ 2 * (N * m) + 228 * m := by
  have hm : 0 < m := lt_of_lt_of_le hr hrm
  obtain ⟨hlow, hhigh, hσ52⟩ := divShift_spec r m hr hrm
  set σ := divShift r m with hσ
  set n := rneInt (r * 2 ^ σ) m with hn
  set t := mulShift (100 * n) with ht
  set N := rneInt (100 * n) (2 ^ t) with hN
  have ht7 : t ≤ 7 := mulShift_le _
  have htσ : t ≤ σ := by omega
  have hD2t : 2 ^ (σ - t) * 2 ^ t = 2 ^ σ := by
    rw [← pow_add]
    congr 1
    omega
  have ht128 : (2 : Nat) ^ t ≤ 128 :=
    le_trans (Nat.pow_le_pow_right (by omega) ht7) (by norm_num)
  have hB := rneInt_bounds (r * 2 ^ σ) m hm
  have hC := rneInt_bounds (100 * n) (2 ^ t) (Nat.pos_pow_of_pos t (by omega))
  refine ⟨N, 2 ^ (σ - t), ?_, ?_, ?_, ?_⟩
  · calc (256 : Nat) ≤ 2 ^ 45 := by norm_num
      _ ≤ 2 ^ (σ - t) := Nat.pow_le_pow_right (by omega) (by omega)
  · simp only [jsRelevanceScore]
    rw [if_neg (by omega)]
    rfl
  · -- 2·N·m ≤ 200·r·D + 228·m, proved at scale 2^t then cancelled
    have s1 : 2 * (N * m) * 2 ^ t ≤ (200 * (r * 2 ^ (σ - t)) + 228 * m) * 2 ^ t := by
      have u1 : 2 * (2 ^ t * N) * m ≤ (2 * (100 * n) + 2 ^ t) * m :=
        Nat.mul_le_mul_right _ hC.2
      have u2 : 100 * (2 * (m * n)) ≤ 100 * (2 * (r * 2 ^ σ) + m) :=
        Nat.mul_le_mul_left _ hB.2
      have u3 : 200 * (r * 2 ^ σ) = 200 * (r * 2 ^ (σ - t)) * 2 ^ t := by
        rw [show 200 * (r * 2 ^ (σ - t)) * 2 ^ t = 200 * (r * (2 ^ (σ - t) * 2 ^ t)) by ring,
          hD2t]
      nlinarith [u1, u2, u3, ht128, Nat.one_le_two_pow (n := t)]
    exact Nat.le_of_mul_le_mul_right s1 (Nat.pos_pow_of_pos t (by omega))
  · have s2 : 200 * (r * 2 ^ (σ - t)) * 2 ^ t ≤ (2 * (N * m) + 228 * m) * 2 ^ t := by
      have u1 : 2 * (100 * n) * m ≤ (2 * (2 ^ t * N) + 2 ^ t) * m :=
        Nat.mul_le_mul_right _ hC.1
      have u2 : 100 * (2 * (r * 2 ^ σ)) ≤ 100 * (2 * (m * n) + m) :=
        Nat.mul_le_mul_left _ hB.1
      have u3 : 200 * (r * 2 ^ σ) = 200 * (r * 2 ^ (σ - t)) * 2 ^ t := by
        rw [show 200 * (r * 2 ^ (σ - t)) * 2 ^ t = 200 * (r * (2 ^ (σ - t) * 2 ^ t)) by ring,
          hD2t]
      nlinarith [u1, u2, u3, ht128, Nat.one_le_two_pow (n := t)]
    exact Nat.le_of_mul_le_mul_right s2 (Nat.pos_pow_of_pos t (by omega))

/-- `a < (a / b + 1) * b` for positive `b`. -/
theorem lt_div_succ_mul (a b : Nat) (hb : 0 < b) : a < (a / b + 1) * b := by
  have h1 := Nat.div_add_mod a b
  have h2 := Nat.mod_lt a hb
  nlinarith [h1, h2]

set_option maxHeartbeats 1600000 in
/-- Pure arithmetic consequences of `score_key`: the score is at most 100
and within 1 of the exactly rounded ratio. -/
theorem score_arith (r m N D E sc : Nat) (hm : 1 ≤ m) (hrm : r ≤ m) (hD : 256 ≤ D)
    (hsc : sc = (2 * N + D) / (2 * D))
    (hE : E = (2 * (100 * r) + m) / (2 * m))
    (hK1 : 2 * (N * m) ≤ 200 * (r * D) + 228 * m)
    (hK2 : 200 * (r * D) ≤ 2 * (N * m) + 228 * m) :
    sc ≤ 100 ∧ E ≤ sc + 1 ∧ sc ≤ E + 1 := by
  have hD0 : 0 < D := by omega
  have hsc1 : sc * (2 * D) ≤ 2 * N + D := by
    rw [hsc]; exact Nat.div_mul_le_self _ _
  have hsc2 : 2 * N + D < (sc + 1) * (2 * D) := by
    rw [hsc]; exact lt_div_succ_mul _ _ (by omega)
  have hE1 : E * (2 * m) ≤ 2 * (100 * r) + m := by
    rw [hE]; exact Nat.div_mul_le_self _ _
  have hE2 : 2 * (100 * r) + m < (E + 1) * (2 * m) := by
    rw [hE]; exact lt_div_succ_mul _ _ (by omega)
  have h2N : 2 * N ≤ 200 * D + 228 := by
    have h1 : 2 * (N * m) ≤ 200 * (m * D) + 228 * m := by
      nlinarith [hK1, Nat.mul_le_mul_right D hrm]
    have h2 : (2 * N) * m ≤ (200 * D + 228) * m := by nlinarith [h1]
    exact Nat.le_of_mul_le_mul_right h2 (by omega)
  refine ⟨?_, ?_, ?_⟩
  · -- sc ≤ 100 since 2N + D < 101·(2D)
    rw [hsc]
    have hlt : 2 * N + D < 101 * (2 * D) := by omega
    exact Nat.lt_succ_iff.mp ((Nat.div_lt_iff_lt_mul (by omega)).mpr hlt)
  · -- E ≤ sc + 1
    have hED : E * D ≤ N + D := by
      have h1 : E * (2 * m) * D ≤ (2 * (100 * r) + m) * D :=
        Nat.mul_le_mul_right _ hE1
      have h3 : 228 * m ≤ m * D := by nlinarith [hD]
      have h4 : E * (2 * m) * D ≤ 2 * (N * m) + 2 * (m * D) := by nlinarith [h1, hK2, h3]
      have h5 : (E * D) * (2 * m) ≤ (N + D) * (2 * m) := by nlinarith [h4]
      exact Nat.le_of_mul_le_mul_right h5 (by omega)
    have h6 : (2 * D) * E < (2 * D) * (sc + 2) := by nlinarith [hED, hsc2]
    have h7 : E < sc + 2 := Nat.lt_of_mul_lt_mul_left h6
    omega
  · -- sc ≤ E + 1
    have hND : N ≤ E * D + D := by
      have h1 : 200 * r ≤ 2 * (m * E) + m := by nlinarith [hE2]
      have h2 : 200 * (r * D) ≤ (2 * (m * E) + m) * D := by nlinarith [h1]
      have h3 : 228 * m ≤ m * D := by nlinarith [hD]
      have h4 : 2 * (N * m) ≤ 2 * (m * E) * D + 2 * (m * D) := by nlinarith [hK1, h2, h3]
      have h5 : N * (2 * m) ≤ (E * D + D) * (2 * m) := by nlinarith [h4]
      exact Nat.le_of_mul_le_mul_right h5 (by omega)
    rw [hsc]
    have hlt : 2 * N + D < (E + 2) * (2 * D) := by nlinarith [hND]
    have h8 : (2 * N + D) / (2 * D) < E + 2 :=
      (Nat.div_lt_iff_lt_mul (by omega)).mpr hlt
    omega

/-- The float score never exceeds 100 when `r ≤ m`. -/
theorem jsRelevanceScore_le_100 (r m : Nat) (hrm : r ≤ m) (hm : 0 < m) :
    jsRelevanceScore r m ≤ 100 := by
  by_cases hr : r = 0
  · subst hr
    simp [jsRelevanceScore]
  · obtain ⟨N, D, hD, hsc, hK1, hK2⟩ := score_key r m (by omega) hrm
    have := score_arith r m N D ((2 * (100 * r) + m) / (2 * m)) (jsRelevanceScore r m)
      hm hrm hD hsc rfl hK1 hK2
    exact this.1

/-- The float score of `r / m` is within 1 of the exactly rounded
`round(100·r/m)` = `specRelevanceScore r m`. -/
theorem jsRelevanceScore_near_spec (r m : Nat) (hrm : r ≤ m) (hm : 0 < m) :
    specRelevanceScore r m ≤ jsRelevanceScore r m + 1 ∧
      jsRelevanceScore r m ≤ specRelevanceScore r m + 1 := by
  have hspec : specRelevanceScore r m = (2 * (100 * r) + m) / (2 * m) := by
    unfold specRelevanceScore
    rw [if_neg (by omega)]
  by_cases hr : r = 0
  · subst hr
    have h0 : specRelevanceScore 0 m = 0 := by
      rw [hspec]
      simp only [Nat.mul_zero, Nat.zero_add]
      exact Nat.div_eq_of_lt (by omega)
    simp [jsRelevanceScore, h0]
  · obtain ⟨N, D, hD, hsc, hK1, hK2⟩ := score_key r m (by omega) hrm
    have := score_arith r m N D (specRelevanceScore r m) (jsRelevanceScore r m)
      hm hrm hD hsc hspec hK1 hK2
    exact ⟨this.2.1, this.2.2⟩

/-- The float score of `m / m` is exactly 100: every rounding step is
exact (`1.0`, then `100.0`). -/
theorem jsRelevanceScore_self (m : Nat) (hm : 0 < m) :
    jsRelevanceScore m m = 100 := by
  have hσ : divShift m m = 52 := divShift_self m hm
  have hmod : (m * 2 ^ 52) % m = 0 := Nat.mul_mod_right m (2 ^ 52)
  have hdiv : m * 2 ^ 52 / m = 2 ^ 52 := Nat.mul_div_cancel_left _ hm
  have hn : rneInt (m * 2 ^ 52) m = 2 ^ 52 := by
    rw [rneInt_dvd _ _ hm hmod, hdiv]
  simp only [jsRelevanceScore]
  rw [if_neg (by omega), hσ, hn]
  decide

-- ----- C2 -----

/-- C2 counterexample: with 40 topic tokens, a paper sharing 23 of them and
a paper sharing all 40, the float computation `(23/40)*100` lands just
below `57.5` and `Math.round` yields 57, while the exact
`round(100·23/40)` is 58 — so the claim's equation fails on this corpus. -/
theorem c2_relevance_score_counterexample :
    ¬ (∀ it ∈ metricsChartData (some sessC2) [paperPart, paperFull],
        it.relevanceScore = specRelevanceScore it.relevance
          (((metricsChartData (some sessC2) [paperPart, paperFull]).map
            MetricsChartItem.relevance).foldl max 0)) ∧
    (metricsChartData (some sessC2) [paperPart, paperFull]).map
      (fun i => (i.relevance, i.relevanceScore)) = [(23, 57), (40, 100)] ∧
    specRelevanceScore 23 40 = 58 := by
  refine ⟨by decide, by decide, by decide⟩

/-- C2 (amended): `relevanceScore` is `round(100 × relevance / max
relevance)` evaluated in binary64 floating point (`jsRelevanceScore`,
against the guarded divisor); it differs from the exactly rounded
`round(100 × relevance / max relevance)` by at most 1, and when the
maximum relevance is `0` every score is `0` — the computation never
divides by zero (the guarded divisor is used instead). -/
theorem c2_relevance_score_float (s : ResearchSession) (papers : List Paper)
    (h : papers ≠ []) :
    ∀ it ∈ metricsChartData (some s) papers,
      (it.relevanceScore = jsRelevanceScore it.relevance
        (if ((metricsChartData (some s) papers).map
            MetricsChartItem.relevance).foldl max 0 = 0 then 1
         else ((metricsChartData (some s) papers).map
            MetricsChartItem.relevance).foldl max 0)) ∧
      (((metricsChartData (some s) papers).map
          MetricsChartItem.relevance).foldl max 0 = 0 →
        it.relevanceScore = 0) ∧
      (specRelevanceScore it.relevance
          (((metricsChartData (some s) papers).map
            MetricsChartItem.relevance).foldl max 0) ≤ it.relevanceScore + 1 ∧
        it.relevanceScore ≤ specRelevanceScore it.relevance
          (((metricsChartData (some s) papers).map
            MetricsChartItem.relevance).foldl max 0) + 1) := by
  intro it hit
  have hM : ((metricsChartData (some s) papers).map
      MetricsChartItem.relevance).foldl max 0 = corpusMaxRelevance s papers := by
    rw [metricsChartData_relevances s papers h, corpusMaxRelevance_eq]
  rw [hM]
  rcases mem_metricsChartData s papers h hit with ⟨k, hk, hrel, hkw, hscore⟩
  have hle : it.relevance ≤ corpusMaxRelevance s papers :=
    relevance_le_corpusMax s papers h hit
  refine ⟨hscore, ?_, ?_⟩
  · intro hz
    have hr0 : it.relevance = 0 := by omega
    rw [hscore, hz, hr0]
    decide
  · by_cases hz : corpusMaxRelevance s papers = 0
    · have hr0 : it.relevance = 0 := by omega
      rw [hscore, hz, hr0]
      decide
    · rw [hscore, if_neg hz]
      exact jsRelevanceScore_near_spec it.relevance (corpusMaxRelevance s papers)
        hle (by omega)

/-- Witness for the amended C2 on the concrete two-paper corpus. -/
theorem c2_relevance_score_float_witness :
    (((metricsChartData (some sessC1) [paperA, paperB]).headD default).relevanceScore =
      jsRelevanceScore
        ((metricsChartData (some sessC1) [paperA, paperB]).headD default).relevance
        (if ((metricsChartData (some sessC1) [paperA, paperB]).map
            MetricsChartItem.relevance).foldl max 0 = 0 then 1
         else ((metricsChartData (some sessC1) [paperA, paperB]).map
            MetricsChartItem.relevance).foldl max 0)) ∧
    (((metricsChartData (some sessC1) [paperA, paperB]).map
        MetricsChartItem.relevance).foldl max 0 = 0 →
      ((metricsChartData (some sessC1) [paperA, paperB]).headD default).relevanceScore = 0) ∧
    (specRelevanceScore
        ((metricsChartData (some sessC1) [paperA, paperB]).headD default).relevance
        (((metricsChartData (some sessC1) [paperA, paperB]).map
          MetricsChartItem.relevance).foldl max 0) ≤
      ((metricsChartData (some sessC1) [paperA, paperB]).headD default).relevanceScore + 1 ∧
      ((metricsChartData (some sessC1) [paperA, paperB]).headD default).relevanceScore ≤
        specRelevanceScore
          ((metricsChartData (some sessC1) [paperA, paperB]).headD default).relevance
          (((metricsChartData (some sessC1) [paperA, paperB]).map
            MetricsChartItem.relevance).foldl max 0) + 1) :=
  c2_relevance_score_float sessC1 [paperA, paperB] (by decide)
    ((metricsChartData (some sessC1) [paperA, paperB]).headD default) (by decide)

/-- C10: every `relevanceScore` lies between 0 and 100, and whenever some
item has positive relevance, every item attaining the maximal relevance
scores exactly 100. -/
theorem c10_relevance_score_range (s : ResearchSession) (papers : List Paper)
    (h : papers ≠ []) :
    ∀ it ∈ metricsChartData (some s) papers,
      0 ≤ it.relevanceScore ∧ it.relevanceScore ≤ 100 ∧
      ((∃ it2 ∈ metricsChartData (some s) papers, 0 < it2.relevance) →
        (∀ it2 ∈ metricsChartData (some s) papers, it2.relevance ≤ it.relevance) →
        it.relevanceScore = 100) := by
  intro it hit
  rcases mem_metricsChartData s papers h hit with ⟨k, hk, hrel, hkw, hscore⟩
  have hle : it.relevance ≤ corpusMaxRelevance s papers :=
    relevance_le_corpusMax s papers h hit
  set M := corpusMaxRelevance s papers with hMdef
  set M2 := if M = 0 then 1 else M with hM2
  have hpos : 0 < M2 := by
    rw [hM2]; split <;> omega
  have hrelM2 : it.relevance ≤ M2 := by
    rw [hM2]; split <;> omega
  refine ⟨Nat.zero_le _, ?_, ?_⟩
  · rw [hscore]
    exact jsRelevanceScore_le_100 it.relevance M2 hrelM2 hpos
  · intro hex hmax
    rcases hex with ⟨it2, hit2, hpos2⟩
    have hMpos : 0 < M :=
      Nat.lt_of_lt_of_le hpos2 (relevance_le_corpusMax s papers h hit2)
    have hMle : M ≤ it.relevance := by
      rw [hMdef, corpusMaxRelevance_eq, ← metricsChartData_relevances s papers h]
      apply foldl_max_le (Nat.zero_le _)
      intro x hx
      rcases List.mem_map.mp hx with ⟨it3, hit3, rfl⟩
      exact hmax it3 hit3
    have hEq : it.relevance = M := Nat.le_antisymm hle hMle
    have hM2M : M2 = M := by rw [hM2, if_neg (by omega)]
    rw [hscore, hM2M, hEq]
    exact jsRelevanceScore_self M hMpos

/-- Witness for C10 on the concrete two-paper corpus. -/
theorem c10_relevance_score_range_witness :
    0 ≤ ((metricsChartData (some sessC1) [paperA, paperB]).headD default).relevanceScore ∧
    ((metricsChartData (some sessC1) [paperA, paperB]).headD default).relevanceScore ≤ 100 ∧
    ((∃ it2 ∈ metricsChartData (some sessC1) [paperA, paperB], 0 < it2.relevance) →
      (∀ it2 ∈ metricsChartData (some sessC1) [paperA, paperB],
        it2.relevance ≤
          ((metricsChartData (some sessC1) [paperA, paperB]).headD default).relevance) →
      ((metricsChartData (some sessC1) [paperA, paperB]).headD default).relevanceScore = 100) :=
  c10_relevance_score_range sessC1 [paperA, paperB] (by decide)
    ((metricsChartData (some sessC1) [paperA, paperB]).headD default) (by decide)

-- ----- C3 -----

theorem splitAux_chars :
    ∀ (s acc t : List Char), t ∈ splitAux s acc → ∀ c ∈ t,
      (c ∈ s ∧ jsSpace c = false) ∨ c ∈ acc := by
  intro s
  induction s with
  | nil =>
    intro acc t ht c hc
    simp only [splitAux] at ht
    split at ht
    · simp at ht
    · right
      rcases List.mem_singleton.mp ht with rfl
      exact List.mem_reverse.mp hc
  | cons c0 rest ih =>
    intro acc t ht c hc
    simp only [splitAux] at ht
    by_cases hsp : jsSpace c0
    · rw [if_pos hsp] at ht
      split at ht
      · rcases ih [] t ht c hc with ⟨hmem, hns⟩ | habs
        · exact Or.inl ⟨List.mem_cons_of_mem c0 hmem, hns⟩
        · simp at habs
      · rcases List.mem_cons.mp ht with rfl | ht2
        · exact Or.inr (List.mem_reverse.mp hc)
        · rcases ih [] t ht2 c hc with ⟨hmem, hns⟩ | habs
          · exact Or.inl ⟨List.mem_cons_of_mem c0 hmem, hns⟩
          · simp at habs
    · rw [if_neg hsp] at ht
      rcases ih (c0 :: acc) t ht c hc with ⟨hmem, hns⟩ | hacc
      · exact Or.inl ⟨List.mem_cons_of_mem c0 hmem, hns⟩
      · rcases List.mem_cons.mp hacc with rfl | hacc2
        · exact Or.inl ⟨List.mem_cons_self c rest, by simpa using hsp⟩
        · exact Or.inr hacc2

/-- Every token `tokenize` produces is a `goodToken`. -/
theorem tokenize_goodToken (l : List Char) : ∀ t ∈ tokenize l, goodToken t := by
  intro t ht
  simp only [tokenize] at ht
  rw [List.mem_dedup] at ht
  have ht2 := List.mem_filter.mp ht
  refine ⟨by simpa using ht2.2, ?_⟩
  intro c hc
  have hchars := splitAux_chars _ [] t ht2.1 c hc
  rcases hchars with ⟨hmem, hns⟩ | habs
  · rcases List.mem_map.mp hmem with ⟨e, he, hce⟩
    by_cases hkeep : keepChar e
    · rw [if_pos hkeep] at hce
      subst hce
      simp only [keepChar, Bool.or_eq_true, Bool.and_eq_true,
        decide_eq_true_eq] at hkeep
      rcases hkeep with ((h1 | h2) | h3) | h4
      · exact Or.inl h1
      · exact Or.inr (Or.inl h2)
      · rw [h3] at hns; cases hns
      · exact Or.inr (Or.inr (by simpa using h4))
    · rw [if_neg hkeep] at hce
      rw [← hce] at hns
      simp [jsSpace] at hns
  · simp at habs

theorem tokenize_nodup (l : List Char) : (tokenize l).Nodup := by
  simp only [tokenize]
  exact List.nodup_dedup _

theorem filter_mem_length_eq_card_inter (l₁ l₂ : List (List Char))
    (h : l₁.Nodup) :
    (l₁.filter (fun t => t ∈ l₂)).length = (l₁.toFinset ∩ l₂.toFinset).card := by
  have hset : (l₁.filter (fun t => t ∈ l₂)).toFinset = l₁.toFinset ∩ l₂.toFinset := by
    ext x
    simp [List.mem_filter]
  rw [← List.toFinset_card_of_nodup (h.filter _), hset]

/-- C3: each item's relevance is the number of distinct tokens shared by
the topic token set and the paper token set, where both token sets consist
of lower-case tokens of length at least 4 over letters, digits and hyphens
(all other punctuation stripped to spaces before splitting). -/
theorem c3_relevance_is_token_intersection (s : ResearchSession)
    (papers : List Paper) (h : papers ≠ []) (k : Nat) (hk : k < papers.length) :
    ∃ hk2 : k < (metricsChartData (some s) papers).length,
      ((metricsChartData (some s) papers).get ⟨k, hk2⟩).relevance =
        ((tokenize (topicChars s)).toFinset ∩
          (tokenize (paperChars (papers.get ⟨k, hk⟩))).toFinset).card ∧
      (∀ t ∈ tokenize (topicChars s), goodToken t) ∧
      (∀ t ∈ tokenize (paperChars (papers.get ⟨k, hk⟩)), goodToken t) := by
  have hk2 : k < (metricsChartData (some s) papers).length := by
    rw [metricsChartData_length s papers h]; exact hk
  refine ⟨hk2, ?_, tokenize_goodToken _, tokenize_goodToken _⟩
  rw [metricsChartData_get s papers h k hk hk2]
  simp only [rawPoint]
  exact filter_mem_length_eq_card_inter _ _ (tokenize_nodup _)

/-- Witness for C3 on the concrete two-paper corpus. -/
theorem c3_relevance_is_token_intersection_witness :
    ∃ hk2 : 0 < (metricsChartData (some sessC1) [paperA, paperB]).length,
      ((metricsChartData (some sessC1) [paperA, paperB]).get ⟨0, hk2⟩).relevance =
        ((tokenize (topicChars sessC1)).toFinset ∩
          (tokenize (paperChars ([paperA, paperB].get ⟨0, by decide⟩))).toFinset).card ∧
      (∀ t ∈ tokenize (topicChars sessC1), goodToken t) ∧
      (∀ t ∈ tokenize (paperChars ([paperA, paperB].get ⟨0, by decide⟩)), goodToken t) :=
  c3_relevance_is_token_intersection sessC1 [paperA, paperB] (by decide) 0 (by decide)

-- ----- C4 -----

/-- A token starting with a word character can never match right after
another word character: the starting `\b` fails. -/
theorem matchesAt_word_word (th : Char) (tt : List Char) (p : Char)
    (hth : wordChar th = true) (hp : wordChar p = true) (s : List Char) :
    matchesAt (th :: tt) (some p) s = false := by
  cases s with
  | nil => simp [matchesAt, List.isPrefixOf]
  | cons c rest =>
    cases hpre : (th :: tt).isPrefixOf (c :: rest) with
    | false => simp [matchesAt, hpre]
    | true =>
      have hc : th = c := by
        simpa [List.isPrefixOf] using And.left (by simpa [List.isPrefixOf] using hpre)
      have hb : isBoundary (some p) (some c) = false := by
        simp [isBoundary, wordOpt, hp, ← hc, hth]
      simp [matchesAt, hb]

theorem reverse_cons_headD (l : List Char) (d p : Char) :
    ((d :: l).reverse).headD p = l.reverse.headD d := by
  rw [List.reverse_cons]
  cases hl : l.reverse with
  | nil => simp
  | cons x xs => simp

theorem reverse_cons_head (th : Char) (tt : List Char) :
    ((th :: tt).reverse).head? = some (tt.reverse.headD th) := by
  rw [List.reverse_cons]
  cases hl : tt.reverse with
  | nil => simp
  | cons x xs => simp

/-- Inside a run of word characters no whole-word match of a word-initial
token can start, so the all-positions count is unchanged by skipping the
run. -/
theorem posCount_skip (th : Char) (tt : List Char) (hth : wordChar th = true) :
    ∀ (u s2 : List Char) (p : Char), wordChar p = true →
      (∀ c ∈ u, wordChar c = true) → u.isPrefixOf s2 = true →
      posCount (th :: tt) (some p) s2 =
        posCount (th :: tt) (some (u.reverse.headD p)) (s2.drop u.length) := by
  intro u
  induction u with
  | nil =>
    intro s2 p hp hu hpre
    simp
  | cons d u2 ih =>
    intro s2 p hp hu hpre
    cases s2 with
    | nil => simp [List.isPrefixOf] at hpre
    | cons e rest =>
      have hde : d = e ∧ u2.isPrefixOf rest = true := by
        simpa [List.isPrefixOf] using hpre
      rcases hde with ⟨heq, hpre2⟩
      subst heq
      simp only [posCount]
      rw [matchesAt_word_word th tt p hth hp]
      have hd : wordChar d = true := hu d (List.mem_cons_self d u2)
      rw [ih rest d hd (fun c hc => hu c (List.mem_cons_of_mem d hc)) hpre2]
      rw [reverse_cons_headD u2 d p]
      simp

/-- For a token made of word characters the left-to-right non-overlapping
scan finds every whole-word occurrence position: occurrences cannot
overlap, so skipping past a match loses nothing. -/
theorem scanCountAux_eq_posCount (th : Char) (tt : List Char)
    (hth : wordChar th = true) (htt : ∀ c ∈ tt, wordChar c = true) :
    ∀ (fuel : Nat) (prev : Option Char) (s : List Char), s.length ≤ fuel →
      scanCountAux fuel (th :: tt) prev s = posCount (th :: tt) prev s := by
  intro fuel
  induction fuel with
  | zero =>
    intro prev s hs
    have hs0 : s = [] := List.eq_nil_of_length_eq_zero (Nat.le_zero.mp hs)
    subst hs0
    rfl
  | succ fuel ih =>
    intro prev s hs
    cases s with
    | nil => rfl
    | cons c rest =>
      have hrest : rest.length ≤ fuel := by
        simpa using hs
      simp only [scanCountAux, posCount]
      cases hm : matchesAt (th :: tt) prev (c :: rest) with
      | false =>
        simp only [Bool.false_eq_true, if_false, Nat.zero_add]
        exact ih (some c) rest hrest
      | true =>
        simp only [if_true]
        have hpre : (th :: tt).isPrefixOf (c :: rest) = true := by
          have hm2 := hm
          simp only [matchesAt, Bool.and_eq_true] at hm2
          exact hm2.1.1
        have hc : th = c ∧ tt.isPrefixOf rest = true := by
          simpa [List.isPrefixOf] using hpre
        rcases hc with ⟨heq, hpre2⟩
        subst heq
        have hdrop : (rest.drop tt.length).length ≤ fuel := by
          simp only [List.length_drop]
          omega
        rw [ih ((th :: tt).reverse.head?) (rest.drop tt.length) hdrop]
        rw [reverse_cons_head th tt]
        exact congrArg (1 + ·)
          (posCount_skip th tt hth tt rest th hth htt hpre2).symm

theorem countWholeWord_eq_specTokenOccurrences (t text : List Char)
    (hne : t ≠ []) (hw : ∀ c ∈ t, wordChar c = true) :
    countWholeWord t text = specTokenOccurrences t text := by
  cases t with
  | nil => exact absurd rfl hne
  | cons th tt =>
    exact scanCountAux_eq_posCount th tt (hw th (List.mem_cons_self th tt))
      (fun c hc => hw c (List.mem_cons_of_mem th hc)) text.length none text
      (Nat.le_refl _)

/-- C4 counterexample: for topic token "a-a-a" and paper text "a-a-a-a" the
code's regex scan counts 1 keyword hit (after the match at position 0 the
scan resumes past it), while the token occurs as a whole word at two
positions (0 and 2), so "total occurrences" as stated fails. -/
theorem c4_keyword_hits_counterexample :
    ¬ (∀ it ∈ metricsChartData (some sessC4) [paperC4],
        it.keywordHits = specKeywordHits sessC4 paperC4) ∧
    (metricsChartData (some sessC4) [paperC4]).map
      (fun i => i.keywordHits) = [1] ∧
    specKeywordHits sessC4 paperC4 = 2 := by
  refine ⟨by decide, by decide, by decide⟩

/-- C4 (amended): each item's keywordHits is the sum over distinct topic
tokens of the number of non-overlapping whole-word matches of the token in
the paper's text, found scanning left to right; when no topic token
contains a hyphen this equals the total number of whole-word occurrence
positions (repeats counted, not distinct). -/
theorem c4_keyword_hits (s : ResearchSession) (papers : List Paper)
    (h : papers ≠ []) (k : Nat) (hk : k < papers.length) :
    ∃ hk2 : k < (metricsChartData (some s) papers).length,
      ((metricsChartData (some s) papers).get ⟨k, hk2⟩).keywordHits =
        ((tokenize (topicChars s)).map
          (fun t => countWholeWord t (paperChars (papers.get ⟨k, hk⟩)))).sum ∧
      ((∀ t ∈ tokenize (topicChars s), '-' ∉ t) →
        ((metricsChartData (some s) papers).get ⟨k, hk2⟩).keywordHits =
          specKeywordHits s (papers.get ⟨k, hk⟩)) := by
  have hk2 : k < (metricsChartData (some s) papers).length := by
    rw [metricsChartData_length s papers h]; exact hk
  have hbase : ((metricsChartData (some s) papers).get ⟨k, hk2⟩).keywordHits =
      ((tokenize (topicChars s)).map
        (fun t => countWholeWord t (paperChars (papers.get ⟨k, hk⟩)))).sum := by
    rw [metricsChartData_get s papers h k hk hk2]
    rfl
  refine ⟨hk2, hbase, ?_⟩
  intro hnoHyphen
  rw [hbase]
  unfold specKeywordHits
  congr 1
  apply List.map_congr_left
  intro t ht
  have hgood := tokenize_goodToken (topicChars s) t ht
  have hne : t ≠ [] := by
    intro h0
    rw [h0] at hgood
    simp [goodToken] at hgood
  have hw : ∀ c ∈ t, wordChar c = true := by
    intro c hc
    rcases hgood.2 c hc with h1 | h2 | h3
    · simp [wordChar, h1.1, h1.2]
    · simp [wordChar, h2.1, h2.2]
    · exact absurd (h3 ▸ hc) (hnoHyphen t ht)
  exact countWholeWord_eq_specTokenOccurrences t _ hne hw

/-- Witness for the amended C4 on the concrete two-paper corpus, whose
topic tokens are hyphen-free. -/
theorem c4_keyword_hits_witness :
    ∃ hk2 : 0 < (metricsChartData (some sessC1) [paperA, paperB]).length,
      ((metricsChartData (some sessC1) [paperA, paperB]).get ⟨0, hk2⟩).keywordHits =
        ((tokenize (topicChars sessC1)).map
          (fun t => countWholeWord t (paperChars ([paperA, paperB].get ⟨0, by decide⟩)))).sum ∧
      ((∀ t ∈ tokenize (topicChars sessC1), '-' ∉ t) →
        ((metricsChartData (some sessC1) [paperA, paperB]).get ⟨0, hk2⟩).keywordHits =
          specKeywordHits sessC1 ([paperA, paperB].get ⟨0, by decide⟩)) :=
  c4_keyword_hits sessC1 [paperA, paperB] (by decide) 0 (by decide)

end ResearchFlow
